import Mathlib

/-!
Shallow embedding of the `quipe` named-pipe message queue
(src/lib.rs, src/error.rs, src/errno.rs) and proofs about its
framing protocol, transfer loops, locking discipline and error paths.

Bytes are modelled as `Nat` (values < 256 where it matters), file
descriptors and OS return values as `Int`, and the OS syscall layer as
explicit oracles passed to each modelled function.
-/

namespace Quipe

/-! ### Framing protocol (src/lib.rs: `PipeQueue::send`, `PipeReader::read_message`)

The pipe itself is modelled as the list of bytes available to the reader.
`read_all` on the data level consumes bytes one at a time, mirroring the
loop in `read_all` (src/lib.rs:66-91): it keeps reading until the buffer
is full, and a read that can deliver nothing (peer gone) is the fatal
"failed to read all bytes" case. -/

inductive ReadErr where
  /-- the syscall returned 0: "failed to read all bytes" -/
  | eof
deriving DecidableEq, Repr

/-- Data-level model of `read_all(fd, data)` for a buffer of `n` bytes over a
stream `s` of available bytes: returns the `n` bytes read and the rest of
the stream, or the fatal error when the stream ends mid-buffer. -/
def read_all_stream : Nat → List Nat → Except ReadErr (List Nat × List Nat)
  | 0, s => .ok ([], s)
  | _ + 1, [] => .error .eof
  | n + 1, b :: s =>
    match read_all_stream n s with
    | .ok (buf, rest) => .ok (b :: buf, rest)
    | .error e => .error e

/-- `u32::to_be_bytes` (the four big-endian bytes of `n`, for `n < 2^32`). -/
def u32_to_be_bytes (n : Nat) : List Nat :=
  [n / 2 ^ 24 % 256, n / 2 ^ 16 % 256, n / 2 ^ 8 % 256, n % 256]

/-- `u32::from_be_bytes` on a 4-byte buffer. -/
def u32_from_be_bytes (b : List Nat) : Nat :=
  match b with
  | [b0, b1, b2, b3] => ((b0 * 256 + b1) * 256 + b2) * 256 + b3
  | _ => 0

/-- Outcome of `PipeQueue::send`: either a single `write_all` of one frame,
or the process aborts (`expect("message too long")`). There is no
recoverable-error alternative on this axis. -/
inductive SendResult where
  | write (frame : List Nat)
  | panic (msg : String)
deriving DecidableEq, Repr

/-- `PipeQueue::send` (src/lib.rs:154-164): `u32::try_from(data.len())`
aborts with "message too long" when the length exceeds `u32::MAX`;
otherwise the frame is the 4 big-endian length bytes followed by the
payload, handed to one `write_all` call. -/
def send (data : List Nat) : SendResult :=
  if data.length < 2 ^ 32 then
    .write (u32_to_be_bytes data.length ++ data)
  else
    .panic "message too long"

/-- `PipeReader::read_message` (src/lib.rs:178-188): read 4 bytes, decode
them big-endian as `msg_len`, read `msg_len` bytes, return the buffer
(with the remaining stream); either failing `read_all` propagates. -/
def read_message (s : List Nat) : Except ReadErr (List Nat × List Nat) :=
  match read_all_stream 4 s with
  | .error e => .error e
  | .ok (len_buf, s1) =>
    let msg_len := u32_from_be_bytes len_buf
    match read_all_stream msg_len s1 with
    | .error e => .error e
    | .ok (buffer, s2) => .ok (buffer, s2)

lemma read_all_stream_eq_take_drop (n : Nat) (s : List Nat) (h : n ≤ s.length) :
    read_all_stream n s = .ok (s.take n, s.drop n) := by
  induction n generalizing s with
  | zero => simp [read_all_stream]
  | succ m ih =>
    cases s with
    | nil => simp at h
    | cons b t =>
      have ht : m ≤ t.length := by simpa using h
      simp [read_all_stream, ih t ht]

lemma read_all_stream_short (n : Nat) (s : List Nat) (h : s.length < n) :
    read_all_stream n s = .error .eof := by
  induction n generalizing s with
  | zero => omega
  | succ m ih =>
    cases s with
    | nil => simp [read_all_stream]
    | cons b t =>
      have ht : t.length < m := by simpa using h
      simp [read_all_stream, ih t ht]

lemma u32_to_be_bytes_length (n : Nat) : (u32_to_be_bytes n).length = 4 := rfl

lemma u32_round (n : Nat) (h : n < 2 ^ 32) :
    u32_from_be_bytes (u32_to_be_bytes n) = n := by
  simp only [u32_to_be_bytes, u32_from_be_bytes]
  omega

/-- C5: for a payload whose length fits in 32 bits, `send` hands exactly one
buffer to `write_all`, of length `4 + |data|`, whose first 4 bytes are the
big-endian encoding of the payload length (decoding back to it) and whose
remainder is exactly the payload. -/
theorem send_frame_spec (data : List Nat) (h : data.length ≤ 2 ^ 32 - 1) :
    ∃ w, send data = .write w ∧
      w.length = 4 + data.length ∧
      w.take 4 = u32_to_be_bytes data.length ∧
      u32_from_be_bytes (w.take 4) = data.length ∧
      w.drop 4 = data := by
  have hlt : data.length < 2 ^ 32 := by omega
  refine ⟨u32_to_be_bytes data.length ++ data, ?_, ?_, ?_, ?_, ?_⟩
  · unfold send; rw [if_pos hlt]
  · simp [u32_to_be_bytes]; omega
  · rw [show (4 : Nat) = (u32_to_be_bytes data.length).length from rfl,
      List.take_left]
  · rw [show (4 : Nat) = (u32_to_be_bytes data.length).length from rfl,
      List.take_left]
    exact u32_round _ hlt
  · rw [show (4 : Nat) = (u32_to_be_bytes data.length).length from rfl,
      List.drop_left]

theorem send_frame_spec_witness :
    ([5, 6] : List Nat).length ≤ 2 ^ 32 - 1 ∧
      ∃ w, send [5, 6] = .write w ∧
        w.length = 4 + ([5, 6] : List Nat).length ∧
        w.take 4 = u32_to_be_bytes ([5, 6] : List Nat).length ∧
        u32_from_be_bytes (w.take 4) = ([5, 6] : List Nat).length ∧
        w.drop 4 = [5, 6] :=
  ⟨by norm_num, send_frame_spec [5, 6] (by norm_num)⟩

/-- C3: a `send` of any payload whose length fits in 32 bits, followed by one
`receive` that reads the sent bytes (with any `rest` of the stream after
them), yields exactly the payload and leaves `rest` unread. -/
theorem send_receive_roundtrip (data rest : List Nat)
    (h : data.length ≤ 2 ^ 32 - 1) :
    ∃ w, send data = .write w ∧ read_message (w ++ rest) = .ok (data, rest) := by
  have hlt : data.length < 2 ^ 32 := by omega
  refine ⟨u32_to_be_bytes data.length ++ data, by unfold send; rw [if_pos hlt], ?_⟩
  have h4 : read_all_stream 4 (u32_to_be_bytes data.length ++ (data ++ rest)) =
      .ok (u32_to_be_bytes data.length, data ++ rest) := by
    have := read_all_stream_eq_take_drop 4
      (u32_to_be_bytes data.length ++ (data ++ rest)) (by simp [u32_to_be_bytes])
    rwa [show (4 : Nat) = (u32_to_be_bytes data.length).length from rfl,
      List.take_left, List.drop_left] at this
  have hp : read_all_stream data.length (data ++ rest) = .ok (data, rest) := by
    have := read_all_stream_eq_take_drop data.length (data ++ rest) (by simp)
    rwa [List.take_left, List.drop_left] at this
  simp [read_message, h4, u32_round data.length hlt, hp]

theorem send_receive_roundtrip_witness :
    ([] : List Nat).length ≤ 2 ^ 32 - 1 ∧
      ∃ w, send [] = .write w ∧ read_message (w ++ []) = .ok ([], []) :=
  ⟨by norm_num, send_receive_roundtrip [] [] (by norm_num)⟩

/-- C4: `read_message` reads exactly 4 bytes, decodes them as a big-endian
length `N`, then reads exactly the next `N` bytes and returns them; if the
stream ends during either read phase, the whole call returns the error and
no partial payload. -/
theorem read_message_spec (s : List Nat) :
    (s.length < 4 → ∃ e, read_message s = .error e) ∧
    (4 ≤ s.length →
      (4 + u32_from_be_bytes (s.take 4) ≤ s.length →
        read_message s =
          .ok ((s.drop 4).take (u32_from_be_bytes (s.take 4)),
               (s.drop 4).drop (u32_from_be_bytes (s.take 4)))) ∧
      (s.length < 4 + u32_from_be_bytes (s.take 4) →
        ∃ e, read_message s = .error e)) := by
  refine ⟨fun hshort => ?_, fun h4 => ⟨fun hfull => ?_, fun hmid => ?_⟩⟩
  · exact ⟨.eof, by simp [read_message, read_all_stream_short 4 s hshort]⟩
  · have hlen : read_all_stream 4 s = .ok (s.take 4, s.drop 4) :=
      read_all_stream_eq_take_drop 4 s h4
    have hdrop : u32_from_be_bytes (s.take 4) ≤ (s.drop 4).length := by
      simp only [List.length_drop]; omega
    simp [read_message, hlen,
      read_all_stream_eq_take_drop _ (s.drop 4) hdrop]
  · have hlen : read_all_stream 4 s = .ok (s.take 4, s.drop 4) :=
      read_all_stream_eq_take_drop 4 s h4
    have hdrop : (s.drop 4).length < u32_from_be_bytes (s.take 4) := by
      simp only [List.length_drop]; omega
    exact ⟨.eof, by
      simp [read_message, hlen, read_all_stream_short _ (s.drop 4) hdrop]⟩

theorem read_message_spec_witness :
    read_message [0, 0, 0, 2, 9, 9, 7] = .ok ([9, 9], [7]) := by
  have h := (read_message_spec [0, 0, 0, 2, 9, 9, 7]).2 (by norm_num)
  have h2 := h.1 (by norm_num [u32_from_be_bytes])
  exact h2.trans rfl

/-- C9: a payload longer than `2^32 - 1` bytes makes `send` abort with
"message too long" (there is no recoverable-error outcome in `SendResult`
beyond this abort), and a payload whose length fits in 32 bits never takes
the abort branch: it always produces a frame write. -/
theorem send_len_contract (data : List Nat) :
    (2 ^ 32 - 1 < data.length → send data = .panic "message too long") ∧
    (data.length ≤ 2 ^ 32 - 1 → ∃ w, send data = .write w) := by
  constructor
  · intro h
    have hn : ¬ data.length < 2 ^ 32 := by omega
    unfold send; rw [if_neg hn]
  · intro h
    have hp : data.length < 2 ^ 32 := by omega
    exact ⟨_, by unfold send; rw [if_pos hp]⟩

theorem send_len_contract_witness :
    send (List.replicate (2 ^ 32) 0) = .panic "message too long" ∧
      ∃ w, send [1] = .write w :=
  ⟨(send_len_contract (List.replicate (2 ^ 32) 0)).1
      (by rw [List.length_replicate]; omega),
   (send_len_contract [1]).2 (by norm_num)⟩

/-! ### Transfer loops at the syscall level (src/lib.rs: `read_all`, `write_all`)

`read_all` (src/lib.rs:66-91) and `write_all` (src/lib.rs:93-118) run the
same control loop over the raw syscall: a return of 0 is fatal, a return
of -1 with `EAGAIN` is retried, a return of -1 with any other errno is an
error carrying that errno, and a positive return advances the buffer
cursor by the transferred count. The loop is modelled over an oracle
listing the successive syscall outcomes; an exhausted oracle while bytes
remain stands for the loop still spinning (it has no timeout). -/

/-- One syscall outcome for `read`/`write` on the descriptor. -/
inductive SysRes where
  /-- returned `n` bytes transferred (the OS guarantees `n` > 0 here) -/
  | ok (n : Nat)
  /-- returned 0 -/
  | zero
  /-- returned -1 with `errno` set to `e` -/
  | fail (e : Int)
deriving DecidableEq, Repr

/-- `libc::EAGAIN` on Linux. -/
def EAGAIN : Int := 11

/-- The error a transfer loop can return. -/
inductive TransErr where
  /-- a syscall returned 0: "failed to transfer all bytes" -/
  | allBytes
  /-- a syscall returned -1 with a non-`EAGAIN` errno -/
  | os (e : Int)
deriving DecidableEq, Repr

/-- Result of running a transfer loop against an oracle. -/
inductive TransResult where
  /-- buffer fully transferred; unconsumed oracle entries remain -/
  | success (rest : List SysRes)
  /-- loop returned the error, leaving the rest of the oracle unconsumed -/
  | error (e : TransErr) (rest : List SysRes)
  /-- oracle exhausted with bytes still to transfer: the loop keeps spinning -/
  | hang
deriving DecidableEq, Repr

/-- The shared loop of `read_all`/`write_all` over `n` outstanding bytes and
an oracle of syscall outcomes. -/
def transfer_all : Nat → List SysRes → TransResult
  | 0, o => .success o
  | _ + 1, [] => .hang
  | n + 1, r :: o =>
    match r with
    | .zero => .error .allBytes o
    | .fail e => if e = EAGAIN then transfer_all (n + 1) o else .error (.os e) o
    | .ok k => transfer_all (n + 1 - k) o

/-- A syscall outcome the loop treats as fatal. -/
def fatal : SysRes → Bool
  | .zero => true
  | .fail e => decide (e ≠ EAGAIN)
  | .ok _ => false

/-- The error the loop reports for a fatal outcome. -/
def fatalErrOf : SysRes → TransErr
  | .zero => .allBytes
  | .fail e => .os e
  | .ok _ => .allBytes

/-- Total bytes delivered by the `ok` outcomes of an oracle segment. -/
def bytes : List SysRes → Nat
  | [] => 0
  | .ok k :: o => k + bytes o
  | _ :: o => bytes o

lemma transfer_all_error_elim (o : List SysRes) :
    ∀ n e r, transfer_all n o = .error e r →
      ∃ pre f, o = pre ++ f :: r ∧ fatal f = true ∧ e = fatalErrOf f ∧
        (∀ x ∈ pre, fatal x = false) ∧ bytes pre < n := by
  induction o with
  | nil =>
    intro n e r h
    cases n <;> simp [transfer_all] at h
  | cons x o ih =>
    intro n e r h
    cases n with
    | zero => simp [transfer_all] at h
    | succ m =>
      cases x with
      | zero =>
        refine ⟨[], .zero, ?_, rfl, ?_, ?_, ?_⟩ <;>
          simp_all [transfer_all, fatal, fatalErrOf, bytes]
      | fail e' =>
        by_cases he : e' = EAGAIN
        · subst he
          rw [transfer_all, if_pos rfl] at h
          obtain ⟨pre, f, rfl, hf, he, hpre, hb⟩ := ih (m + 1) e r h
          refine ⟨.fail EAGAIN :: pre, f, rfl, hf, he, ?_, ?_⟩
          · intro y hy
            rcases List.mem_cons.mp hy with rfl | hy
            · simp [fatal]
            · exact hpre y hy
          · simpa [bytes] using hb
        · rw [transfer_all, if_neg he] at h
          obtain ⟨rfl, rfl⟩ : TransErr.os e' = e ∧ o = r := by
            cases h; exact ⟨rfl, rfl⟩
          exact ⟨[], .fail e', rfl, by simp [fatal, he], rfl, by simp,
            by simp [bytes]⟩
      | ok k =>
        rw [transfer_all] at h
        obtain ⟨pre, f, rfl, hf, he, hpre, hb⟩ := ih (m + 1 - k) e r h
        refine ⟨.ok k :: pre, f, rfl, hf, he, ?_, ?_⟩
        · intro y hy
          rcases List.mem_cons.mp hy with rfl | hy
          · simp [fatal]
          · exact hpre y hy
        · simp only [bytes]; omega

lemma transfer_all_error_intro (pre : List SysRes) :
    ∀ (n : Nat) (f : SysRes) (post : List SysRes), fatal f = true →
      (∀ x ∈ pre, fatal x = false) → bytes pre < n →
      transfer_all n (pre ++ f :: post) = .error (fatalErrOf f) post := by
  induction pre with
  | nil =>
    intro n f post hf _ hb
    obtain ⟨m, rfl⟩ : ∃ m, n = m + 1 := ⟨n - 1, by omega⟩
    cases f with
    | zero => simp [transfer_all, fatalErrOf]
    | fail e =>
      have he : ¬ e = EAGAIN := by simpa [fatal] using hf
      simp [transfer_all, if_neg he, fatalErrOf]
    | ok k => simp [fatal] at hf
  | cons x pre ih =>
    intro n f post hf hpre hb
    obtain ⟨m, rfl⟩ : ∃ m, n = m + 1 := ⟨n - 1, by omega⟩
    have hx : fatal x = false := hpre x (List.mem_cons_self x pre)
    have hpre' : ∀ y ∈ pre, fatal y = false :=
      fun y hy => hpre y (List.mem_cons_of_mem x hy)
    cases x with
    | zero => simp [fatal] at hx
    | fail e =>
      have he : e = EAGAIN := by simpa [fatal] using hx
      subst he
      rw [List.cons_append, transfer_all, if_pos rfl]
      exact ih (m + 1) f post hf hpre' (by simpa [bytes] using hb)
    | ok k =>
      rw [List.cons_append, transfer_all]
      have hb' : bytes pre < m + 1 - k := by
        simp only [bytes] at hb; omega
      exact ih (m + 1 - k) f post hf hpre' hb'

lemma transfer_all_success_of (o : List SysRes) :
    ∀ n : Nat, (∀ x ∈ o, fatal x = false) → n ≤ bytes o →
      ∃ r, transfer_all n o = .success r := by
  induction o with
  | nil =>
    intro n _ hb
    have : n = 0 := by simpa [bytes] using hb
    exact ⟨[], by simp [this, transfer_all]⟩
  | cons x o ih =>
    intro n hfat hb
    cases n with
    | zero => exact ⟨x :: o, by simp [transfer_all]⟩
    | succ m =>
      have hx : fatal x = false := hfat x (List.mem_cons_self x o)
      have hfat' : ∀ y ∈ o, fatal y = false :=
        fun y hy => hfat y (List.mem_cons_of_mem x hy)
      cases x with
      | zero => simp [fatal] at hx
      | fail e =>
        have he : e = EAGAIN := by simpa [fatal] using hx
        subst he
        rw [transfer_all, if_pos rfl]
        exact ih (m + 1) hfat' (by simpa [bytes] using hb)
      | ok k =>
        rw [transfer_all]
        have hb' : m + 1 - k ≤ bytes o := by
          simp only [bytes] at hb; omega
        exact ih (m + 1 - k) hfat' hb'

/-- C6: the transfer loop returns an error exactly when the consumed part of
the syscall sequence hits a zero-byte transfer ("failed to transfer all
bytes") or a non-would-block failure before the buffer is complete — in
both directions: whenever the syscall sequence holds a fatal outcome
preceded only by non-fatal ones that deliver too few bytes to finish the
buffer, the loop returns exactly the error that outcome dictates, and,
conversely, every returned error arises from such a fatal outcome.
Moreover a would-block outcome is retried invisibly, a partial transfer
advances the outstanding byte count, and a fatal-free syscall sequence
delivering enough bytes always completes the buffer. -/
theorem transfer_all_spec (n : Nat) (o : List SysRes) :
    (∀ pre f post, o = pre ++ f :: post → fatal f = true →
      (∀ x ∈ pre, fatal x = false) → bytes pre < n →
      transfer_all n o = .error (fatalErrOf f) post) ∧
    (∀ e r, transfer_all n o = .error e r →
      ∃ pre f, o = pre ++ f :: r ∧ fatal f = true ∧ e = fatalErrOf f ∧
        (∀ x ∈ pre, fatal x = false) ∧ bytes pre < n) ∧
    (∀ o', 0 < n → transfer_all n (.fail EAGAIN :: o') = transfer_all n o') ∧
    (∀ k o', 0 < n → transfer_all n (.ok k :: o') = transfer_all (n - k) o') ∧
    ((∀ x ∈ o, fatal x = false) → n ≤ bytes o →
      ∃ r, transfer_all n o = .success r) := by
  refine ⟨?_, ?_, ?_, ?_, transfer_all_success_of o n⟩
  · intro pre f post ho hf hpre hb
    subst ho
    exact transfer_all_error_intro pre n f post hf hpre hb
  · intro e r h
    exact transfer_all_error_elim o n e r h
  · intro o' hn
    obtain ⟨m, rfl⟩ : ∃ m, n = m + 1 := ⟨n - 1, by omega⟩
    rw [transfer_all, if_pos rfl]
  · intro k o' hn
    obtain ⟨m, rfl⟩ : ∃ m, n = m + 1 := ⟨n - 1, by omega⟩
    rw [transfer_all]

theorem transfer_all_spec_witness :
    transfer_all 2 [.fail EAGAIN, .ok 1, .zero] =
        .error (fatalErrOf .zero) [] ∧
      (∃ pre f, ([.fail EAGAIN, .zero] : List SysRes) = pre ++ f :: [] ∧
        fatal f = true ∧ TransErr.allBytes = fatalErrOf f ∧
        (∀ x ∈ pre, fatal x = false) ∧ bytes pre < 3) ∧
      ∃ r, transfer_all 2 [.fail EAGAIN, .ok 2] = .success r :=
  ⟨(transfer_all_spec 2 [.fail EAGAIN, .ok 1, .zero]).1
      [.fail EAGAIN, .ok 1] .zero [] rfl rfl (by decide) (by decide),
   (transfer_all_spec 3 [.fail EAGAIN, .zero]).2.1 .allBytes [] rfl,
   (transfer_all_spec 2 [.fail EAGAIN, .ok 2]).2.2.2.2 (by decide) (by decide)⟩

/-! ### Syscall trace of `receive` (src/lib.rs: `AdvisoryLock`, `PipeReader::receive`)

`receive` (src/lib.rs:173-176) constructs an `AdvisoryLock` guard and then
calls `read_message`; the guard's destructor runs when `receive`'s scope
ends, on every exit path. The model records the sequence of
lock/read syscalls each piece issues, with the success or failure of the
two `read_all` phases supplied as parameters. -/

/-- Outcome of one `read_all` phase inside `read_message`. -/
inductive Phase where
  | success
  | failure
deriving DecidableEq, Repr

/-- A syscall issued on the reader's descriptor during `receive`. -/
inductive REvent where
  /-- `flock(fd, LOCK_EX)`: exclusive-lock acquisition -/
  | flockEx
  /-- the `read` syscalls of the 4-byte length phase -/
  | readLen
  /-- the `read` syscalls of the payload phase -/
  | readPayload
  /-- `flock(fd, LOCK_UN)`: the unlock -/
  | flockUn
deriving DecidableEq, Repr

/-- `AdvisoryLock::new` (src/lib.rs:125-127) is `Self { fd }`: it stores the
descriptor and issues no syscall at all. -/
def advisory_lock_new_events : List REvent := []

/-- `AdvisoryLock::drop` (src/lib.rs:130-134) issues `flock(fd, LOCK_UN)`. -/
def advisory_lock_drop_events : List REvent := [.flockUn]

/-- Syscalls of `read_message` (src/lib.rs:178-188) and whether it returns
`Ok`: the length phase always runs; on its failure the `?` operator
returns early, otherwise the payload phase runs. -/
def read_message_events : Phase → Phase → List REvent × Phase
  | .failure, _ => ([.readLen], .failure)
  | .success, p2 => ([.readLen, .readPayload], p2)

/-- Syscalls of `PipeReader::receive` (src/lib.rs:173-176): what
`AdvisoryLock::new` issues, then `read_message`, then — whichever way
`read_message` exited — the guard's destructor. -/
def receive_events (p1 p2 : Phase) : List REvent × Phase :=
  let (evs, out) := read_message_events p1 p2
  (advisory_lock_new_events ++ evs ++ advisory_lock_drop_events, out)

/-- C1: on every path through `receive` the trace contains read syscalls but
never a `flock(fd, LOCK_EX)`: `AdvisoryLock::new` only stores the
descriptor, so no advisory lock is ever acquired and every read happens
with no lock held — the claimed AcquireLock step does not exist. -/
theorem receive_never_acquires_lock (p1 p2 : Phase) :
    REvent.flockEx ∉ (receive_events p1 p2).1 ∧
      REvent.readLen ∈ (receive_events p1 p2).1 := by
  cases p1 <;> cases p2 <;> decide

/-- C2: on every path through `receive` — both read phases succeeding,
the length read failing, or the payload read failing — the unlock
`flock(fd, LOCK_UN)` appears exactly once in the trace, and it is the last
syscall before `receive` returns. -/
theorem receive_unlock_once (p1 p2 : Phase) :
    ((receive_events p1 p2).1.count .flockUn = 1) ∧
      (receive_events p1 p2).1.getLast? = some .flockUn := by
  cases p1 <;> cases p2 <;> decide

/-! ### `open`, `flock` and the error values they build
(src/lib.rs: `open`, `flock`, `AdvisoryLock::drop`; src/error.rs: `Error`)

The OS side of a syscall is modelled as the pair of its return value and
the `errno` it leaves behind. `strerror` is modelled as an injective
rendering of the error code — distinct codes have distinct texts. -/

/-- The return value and resulting `errno` of one OS call. -/
structure OsCall where
  ret : Int
  errno : Int
deriving DecidableEq, Repr

/-- Model of `strerror(e)`, the text of error code `e` (distinct codes
render distinctly). -/
def strerrorText (e : Int) : String := "strerror(" ++ toString e ++ ")"

/-- `Error` (src/error.rs:5-9) carries a message (the `location` field is
compile-time caller metadata and is not modelled). -/
structure Error where
  message : String
deriving DecidableEq, Repr

/-- `libc::ENOENT`. -/
def ENOENT : Int := 2

/-- `libc::EACCES`. -/
def EACCES : Int := 13

/-- `open` (src/lib.rs:29-46): on `fd < 0` builds
`"Failed to open file at {path} [errno={errno}]"` where the formatted
errno is `Errno::from(fd)` — the returned `fd` itself, not the `errno`
the OS set; on success returns the descriptor. -/
def open_path (path : String) (os : OsCall) : Except Error Int :=
  if os.ret < 0 then
    .error ⟨"Failed to open file at " ++ path ++ " [errno="
      ++ strerrorText os.ret ++ "]"⟩
  else
    .ok os.ret

/-- `PipeReader::new` (src/lib.rs:168-171): `open(path, O_RDONLY |
O_NONBLOCK, 0)?`, wrapping the descriptor. -/
def pipe_reader_new (path : String) (os : OsCall) : Except Error Int :=
  open_path path os

/-- `flock` (src/lib.rs:136-146): error with
`"failed to acquire lock on pipe [errno={errno}]"` when the call returns a
negative value, with `errno` read from the OS. -/
def flock_call (os : OsCall) : Except Error Unit :=
  if os.ret < 0 then
    .error ⟨"failed to acquire lock on pipe [errno="
      ++ strerrorText os.errno ++ "]"⟩
  else
    .ok ()

/-- How a destructor can finish: normally, or by aborting the process. -/
inductive DropOutcome where
  | normal
  | panic (msg : String)
deriving DecidableEq, Repr

/-- `AdvisoryLock::drop` (src/lib.rs:130-134):
`flock(self.fd, LOCK_UN).expect("failed to release lock on pipe")` — an
`Err` from `flock` aborts with that message; there is no way for the
destructor to hand an `Error` value back to `receive`'s caller. -/
def advisory_lock_drop (os : OsCall) : DropOutcome :=
  match flock_call os with
  | .ok _ => .normal
  | .error _ => .panic "failed to release lock on pipe"

/-- C10: the unlock in `AdvisoryLock::drop` aborts the process with
"failed to release lock on pipe" exactly when the `flock(LOCK_UN)`
syscall fails, and completes normally exactly when it succeeds — a failed
unlock can never surface as a returned `Error` value. -/
theorem advisory_lock_drop_spec (os : OsCall) :
    (advisory_lock_drop os = .panic "failed to release lock on pipe" ↔
      os.ret < 0) ∧
    (advisory_lock_drop os = .normal ↔ 0 ≤ os.ret) := by
  by_cases h : os.ret < 0
  · simp [advisory_lock_drop, flock_call, h]
  · simp [advisory_lock_drop, flock_call, h]
    omega

/-- C7 counterexample: opening a reader on a missing path (the OS fails with
`ENOENT`) returns the very same error value as an open failing for any
other reason (here `EACCES`) — there is no distinguishable NotFound
condition, only the one generic open error. -/
theorem open_reader_not_found_counterexample :
    pipe_reader_new "/tmp/q" ⟨-1, ENOENT⟩ = pipe_reader_new "/tmp/q" ⟨-1, EACCES⟩ ∧
      pipe_reader_new "/tmp/q" ⟨-1, ENOENT⟩ =
        .error ⟨"Failed to open file at /tmp/q [errno=" ++ strerrorText (-1) ++ "]"⟩ := by
  constructor <;> rfl

/-- C7 amended: opening a reader on a path that does not exist fails, but
with the same generic I/O error value as any other open failure on that
path; the reported error does not depend on which errno the OS set. -/
theorem open_reader_failure_generic (path : String) (os os' : OsCall)
    (h : os.ret = -1) (h' : os'.ret = -1) :
    pipe_reader_new path os = pipe_reader_new path os' ∧
      ∃ e, pipe_reader_new path os = .error e := by
  constructor
  · simp [pipe_reader_new, open_path, h, h']
  · exact ⟨⟨"Failed to open file at " ++ path ++ " [errno="
      ++ strerrorText (-1) ++ "]"⟩, by simp [pipe_reader_new, open_path, h]⟩

theorem open_reader_failure_generic_witness :
    pipe_reader_new "/q" ⟨-1, ENOENT⟩ = pipe_reader_new "/q" ⟨-1, EACCES⟩ ∧
      ∃ e, pipe_reader_new "/q" ⟨-1, ENOENT⟩ = .error e :=
  open_reader_failure_generic "/q" ⟨-1, ENOENT⟩ ⟨-1, EACCES⟩ rfl rfl

/-- C8: at the failing input where `libc::open` returns -1 with the OS
errno `ENOENT`, the error message `open` builds renders `strerror(-1)` —
`Errno::from(fd)` applied to the returned descriptor — which differs from
the text of the OS error code that actually caused the failure. -/
theorem open_errno_text_wrong :
    open_path "/tmp/q" ⟨-1, ENOENT⟩ =
      .error ⟨"Failed to open file at /tmp/q [errno="
        ++ strerrorText (-1) ++ "]"⟩ ∧
      strerrorText (-1) ≠ strerrorText ENOENT := by
  exact ⟨rfl, by decide⟩

end Quipe
